import Mathlib

/-!
Verification model of the statechart core in src/packages/core/src/StateNode.ts.

The development is a shallow embedding of the StateNode class: the pure data
of a constructed node tree, the constructor logic, the lazily derived views
(idMap, events, ownEvents, initialStateValue) and the event-resolution
function StateNode.next.

Collaborator functions imported from files that are not part of the source
under verification (utils.ts, stateUtils.ts: getCandidates, evaluateGuard,
isLeafNode, nodesFromChild, getRelativeStateNodes, matchesState) are modelled
from the specification; each such definition carries a doc comment saying so.
-/

namespace XStateModel

/-- JS logical-or over an optional string: an absent or empty string is falsy
and falls back to the default, mirroring the source idiom a-or-b. -/
def jsOr : Option String → String → String
  | none, d => d
  | some s, d => if s = "" then d else s

/-- First-occurrence deduplication, the observable behaviour of the JS
pattern Array.from(new Set(list)): each element kept at its first position. -/
def dedupFirstAux (seen : List String) : List String → List String
  | [] => []
  | a :: l =>
    if seen.contains a then dedupFirstAux seen l
    else a :: dedupFirstAux (a :: seen) l

def dedupFirst (l : List String) : List String := dedupFirstAux [] l

/-- Node kinds, the type field of StateNode (source lines 75-83). -/
inductive NodeType where
  | atomic
  | compound
  | parallel
  | final
  | history
deriving DecidableEq, Repr

/-- The history entry of the raw config: JS true, the string shallow, or the
string deep. An absent entry (undefined or false) is the none case. -/
inductive HistoryFlag where
  | htrue
  | shallow
  | deep
deriving DecidableEq, Repr

/-- The resolved history field of a node: false (none), shallow or deep. -/
inductive HistMode where
  | shallow
  | deep
deriving DecidableEq, Repr

/-- Source line 215-216: config.history === true gives shallow, otherwise the
configured mode is kept, with absent meaning false. -/
def resolveHistory : Option HistoryFlag → Option HistMode
  | none => none
  | some .htrue => some .shallow
  | some .shallow => some .shallow
  | some .deep => some .deep

/-- A state value: a leaf key or a record of sub-values. An entry whose value
is the none case models a JS undefined entry value. -/
inductive StateValue where
  | str (s : String)
  | obj (entries : List (String × Option StateValue))

/-- JS truthiness of an optional state value: undefined and the empty string
are falsy, objects are always truthy. -/
def svTruthy : Option StateValue → Bool
  | none => false
  | some (.str s) => s ≠ ""
  | some (.obj _) => true

/-- The JS expression value-or-EMPTY_OBJECT used in the parallel branch of
initialStateValue (source line 473). -/
def svOrEmpty (v : Option StateValue) : StateValue :=
  if svTruthy v then v.getD (.obj []) else .obj []

/-- Default path delimiter. Modelled from the spec: the constant
STATE_DELIMITER lives in constants.ts, outside the source under verification;
the spec calls it the default delimiter and the derived ids in the spec
examples join with a dot. -/
def STATE_DELIMITER : String := "."

/-- One declared handler entry, already in the normalized ordered form that
formatTransitions produces. Modelled from the spec: formatTransitions lives in
stateUtils.ts, outside the source under verification; spec section 4.2 says it
yields a flat ordered sequence of transition descriptors (event matcher,
target references, action list, internal flag) preserving declaration order,
so a node carries that sequence directly. -/
structure TransitionSrc where
  eventType : String
  target : Option (List String)
  actions : List String
  internal : Bool
deriving DecidableEq, Repr

/-- The raw declarative config of one node (the StateNodeConfig fields that
the StateNode constructor reads): key, id and delimiter overrides, explicit
type, history entry, initial child key, child configs in declaration order,
and the declared handlers. -/
inductive Config where
  | mk (key id delimiter : Option String) (ctype : Option NodeType)
      (history : Option HistoryFlag) (initial : Option String)
      (states : List (String × Config)) (handlers : List TransitionSrc) : Config

/-- A constructed StateNode: the fields the constructor assigns
(source lines 166-236), with children in declaration order. -/
inductive ANode where
  | mk (key id : String) (ntype : NodeType) (path : List String)
      (initialKey : Option String) (hist : Option HistMode)
      (transitions : List TransitionSrc) (states : List (String × ANode)) : ANode

def ANode.key : ANode → String
  | .mk k _ _ _ _ _ _ _ => k

def ANode.id : ANode → String
  | .mk _ i _ _ _ _ _ _ => i

def ANode.ntype : ANode → NodeType
  | .mk _ _ t _ _ _ _ _ => t

def ANode.path : ANode → List String
  | .mk _ _ _ p _ _ _ _ => p

def ANode.initialKey : ANode → Option String
  | .mk _ _ _ _ i _ _ _ => i

def ANode.transitions : ANode → List TransitionSrc
  | .mk _ _ _ _ _ _ ts _ => ts

def ANode.statesList : ANode → List (String × ANode)
  | .mk _ _ _ _ _ _ _ s => s

mutual

/-- The StateNode constructor (source lines 166-236) as a total function.
okey is options._key; parentInfo is absent for the machine root and otherwise
carries the parent path and the machine root key.

Faithful to the source, including its slip: the source reads
isMachine = not this.parent BEFORE this.parent is assigned (lines 173-174),
so isMachine is true for every node and the id join always uses the node
OWN config delimiter (or the default), never the machine delimiter of the
other ternary branch, which is dead code. -/
def mkStateNode : Config → String → Option (List String × String) → ANode
  | .mk ckey cid cdelim ctype chist cinit cstates chandlers, okey, parentInfo =>
    let key := jsOr ckey okey
    let path := match parentInfo with
      | none => []
      | some (ppath, _) => ppath ++ [key]
    let machineKey := match parentInfo with
      | none => key
      | some (_, mkey) => mkey
    let delim := jsOr cdelim STATE_DELIMITER
    let id := jsOr cid (String.intercalate delim (machineKey :: path))
    let ntype := match ctype with
      | some t => t
      | none =>
        if cstates.isEmpty then (if chist.isSome then .history else .atomic)
        else .compound
    .mk key id ntype path cinit (resolveHistory chist) chandlers
      (mkChildren cstates path machineKey)

/-- The children loop of the constructor (source lines 197-212): each child is
built with its mapping key as options._key and this node as parent. -/
def mkChildren : List (String × Config) → List String → String → List (String × ANode)
  | [], _, _ => []
  | (k, c) :: rest, ppath, machineKey =>
    (k, mkStateNode c k (some (ppath, machineKey))) :: mkChildren rest ppath machineKey

end

/-- Setting one property on a JS object modelled as an ordered association
list: a key already present keeps its position and takes the new value (last
write wins), a new key is appended at the end, as property assignment does. -/
def objAssign (m : List (String × ANode)) (k : String) (v : ANode) :
    List (String × ANode) :=
  if k ∈ m.map Prod.fst then m.map (fun p => if p.1 = k then (k, v) else p)
  else m ++ [(k, v)]

/-- Object.assign: the properties of the source entries set on the target in
order, each with the overwrite semantics of objAssign. -/
def objAssignList (m : List (String × ANode)) :
    List (String × ANode) → List (String × ANode)
  | [] => m
  | (k, v) :: rest => objAssignList (objAssign m k v) rest

mutual

/-- The flat id lookup a node carries after construction (source lines
164, 205-208): starting from the empty object, for each child, in order, the
constructor runs Object.assign with the literal holding the child under its
id followed by the spread of the child idMap. Both the literal and the
assignment carry JS object-key semantics: a duplicate id overwrites the
earlier value while keeping the first key position. The node itself is never
added to its own idMap. -/
def idMapOf : ANode → List (String × ANode)
  | .mk _ _ _ _ _ _ _ states => idMapList [] states

/-- The children loop of lines 197-212 restricted to its idMap effect, acc
being the object built so far. -/
def idMapList (acc : List (String × ANode)) :
    List (String × ANode) → List (String × ANode)
  | [] => acc
  | (_, c) :: rest =>
    idMapList (objAssignList acc (objAssignList (objAssign [] c.id c) (idMapOf c))) rest

end

mutual

/-- The proper descendants of a node in document preorder. -/
def properDesc : ANode → List ANode
  | .mk _ _ _ _ _ _ _ states => properDescList states

def properDescList : List (String × ANode) → List ANode
  | [] => []
  | (_, c) :: rest => (c :: properDesc c) ++ properDescList rest

end

/-- ownEvents (source lines 563-577): the event types of the transitions that
are not inert, an inert transition having no target, no actions and the
internal flag; first-occurrence order via a Set. -/
def ownEvents (n : ANode) : List String :=
  dedupFirst
    ((n.transitions.filter
        (fun t => !(t.target.isNone && t.actions.isEmpty && t.internal))).map
      (fun t => t.eventType))

mutual

/-- events (source lines 537-556): a Set seeded with ownEvents, then for every
child the child events are added. The source guards the child loop with
if (state.states), but states is always an object (EMPTY_OBJECT when no
children are declared) and any object is truthy in JS, so the guard never
filters anything and every child contributes, leaf children included. -/
def events : ANode → List String
  | .mk _ _ _ _ _ _ ts states =>
    dedupFirst
      ((dedupFirst
          ((ts.filter
              (fun t => !(t.target.isNone && t.actions.isEmpty && t.internal))).map
            (fun t => t.eventType))) ++ eventsList states)

def eventsList : List (String × ANode) → List String
  | [] => []
  | (_, c) :: rest => events c ++ eventsList rest

end

mutual

/-- The events computation as the spec describes it: a child contributes its
events only when it itself has nested children. This definition follows the
spec words, not the source, and exists to be compared with events. -/
def eventsSpecC9 : ANode → List String
  | .mk _ _ _ _ _ _ ts states =>
    dedupFirst
      ((dedupFirst
          ((ts.filter
              (fun t => !(t.target.isNone && t.actions.isEmpty && t.internal))).map
            (fun t => t.eventType))) ++ eventsSpecList states)

def eventsSpecList : List (String × ANode) → List String
  | [] => []
  | (_, c) :: rest =>
    (if c.statesList.isEmpty then [] else eventsSpecC9 c) ++ eventsSpecList rest

end

/-- Modelled from the spec: isLeafNode lives in stateUtils.ts, outside the
source under verification. Spec section 3 calls an atomic or final node a
leaf with no active children, and section 4.4 uses leafness to decide whether
the initial value is just the child key. -/
def isLeafNode (n : ANode) : Bool :=
  n.ntype = NodeType.atomic || n.ntype = NodeType.final

mutual

/-- initialStateValue (source lines 463-493) with the thrown configuration
error made explicit as an Except error. A parallel node maps its non-history
children to their initial values; otherwise, when an initial key is declared,
a missing child of that key raises the error, a leaf child gives the key and
a non-leaf child nests its own initial value. With no initial key the result
is undefined (ok none): the source raises nothing in that case. -/
def initialStateValue : ANode → Except String (Option StateValue)
  | .mk key _ ntype _ initialKey _ _ states =>
    if ntype = NodeType.parallel then
      (parallelInitial states).map (fun es => some (.obj es))
    else
      match initialKey with
      | some k => initialViaKey key k states
      | none => .ok none

/-- The compound branch: the JS lookup this.states[this.initial] followed by
the not-found error (source lines 477-487). -/
def initialViaKey (nodeKey k : String) : List (String × ANode) → Except String (Option StateValue)
  | [] => .error ("Initial state '" ++ k ++ "' not found on '" ++ nodeKey ++ "'")
  | (ck, c) :: rest =>
    if ck = k then
      if isLeafNode c then .ok (some (.str k))
      else (initialStateValue c).map (fun v => some (.obj [(k, v)]))
    else initialViaKey nodeKey k rest

/-- The parallel branch: mapFilterValues over the children, skipping history
children, each entry holding the child initial value or the empty object
(source lines 470-475). -/
def parallelInitial : List (String × ANode) → Except String (List (String × Option StateValue))
  | [] => .ok []
  | (k, c) :: rest =>
    if c.ntype = NodeType.history then parallelInitial rest
    else
      match initialStateValue c with
      | .error e => .error e
      | .ok v =>
        match parallelInitial rest with
        | .error e => .error e
        | .ok entries => .ok ((k, some (svOrEmpty v)) :: entries)

end

/-!
The resolution model for StateNode.next (source lines 353-461).

Following the spec design note on parent and child cyclic references, the
tree here is an arena: a list of nodes addressed by index, each node holding
a back-reference index to its parent and indices of its children. Guard
evaluation and the in-state matching predicate are caller-supplied
collaborators (spec section 6), passed in as an environment; a guard that
throws is an Except error carrying the thrown message.

Besides the StateTransition result, next also returns the ordered list of
guards handed to the guard evaluator, the ghost observation needed to state
which guards are invoked and in which order. That list is built by exactly
the calls the source makes to evaluateGuard.
-/

/-- A guard descriptor: a possibly absent function name and a type tag; the
source error message picks cond.name or cond.type (lines 405-407). -/
structure Guard where
  name : Option String
  gtype : String
deriving DecidableEq, Repr

/-- One compiled transition as next consumes it: event type, optional guard,
optional in-state condition (an opaque reference resolved by the collaborator
matching predicate), optional target node indices, actions, internal flag. -/
structure Candidate where
  eventType : String
  cond : Option Guard
  inCond : Option String
  target : Option (List Nat)
  actions : List String
  internal : Bool
deriving DecidableEq, Repr

/-- One node of the arena: id, kind, parent back-reference, child indices,
the initial child and history fallback target used by target expansion, and
the compiled transitions. -/
structure BNode where
  id : String
  ntype : NodeType
  parent : Option Nat
  children : List Nat
  initialChild : Option Nat
  historyTarget : Option Nat
  transitions : List Candidate

def dfltBNode : BNode :=
  { id := "", ntype := .atomic, parent := none, children := [],
    initialChild := none, historyTarget := none, transitions := [] }

/-- The state snapshot fields next reads: the current value (for truthiness
and the no-target configuration) and the history value mapping a history
node id to its recorded configuration. -/
structure BState where
  value : Option StateValue
  historyValue : List (String × List Nat)

/-- The caller-supplied collaborators (spec section 6): the guard evaluation
function, which may fail with a thrown message, and the state-value matching
predicate behind the in-state condition. -/
structure Env where
  evalGuard : Guard → BState → String → Except String Bool
  evalIn : String → BState → Bool

/-- The result record of next (the StateTransition type): selected
transitions, next configuration, entry set, exit set and collected actions.
The source field holding the input snapshot verbatim is omitted. -/
structure StateTransition where
  transitions : List Candidate
  configuration : List Nat
  entrySet : List Nat
  exitSet : List Nat
  actions : List String
deriving DecidableEq, Repr

/-- Modelled from the spec: getCandidates lives in stateUtils.ts, outside the
source under verification. Spec step 2 of section 4.3: the ordered
subsequence of the node transitions whose matcher equals the event type,
distinct buckets being keyed separately. -/
def getCandidates (n : BNode) (evName : String) : List Candidate :=
  n.transitions.filter (fun t => t.eventType == evName)

/-- The error the source throws when a guard evaluation throws (lines
403-411): the guard name or type, the event name and the node id wrapped
around the original message. -/
def wrapGuardError (g : Guard) (evName nodeId msg : String) : String :=
  "Unable to evaluate guard '" ++ jsOr g.name g.gtype ++
    "' in transition for event '" ++ evName ++ "' in state node '" ++
    nodeId ++ "':\n" ++ msg

/-- The in-state condition of a candidate (source lines 382-396): true when
absent, otherwise the collaborator matching predicate. -/
def evalInCondB (env : Env) (st : BState) (c : Candidate) : Bool :=
  match c.inCond with
  | none => true
  | some r => env.evalIn r st

/-- The candidate loop of next (source lines 378-421): for each candidate in
order, the in-state condition is computed, then the guard is evaluated inside
try-catch (the JS short-circuit skips the evaluator only when no guard is
declared); the first candidate with guard passed and in-state true is
selected and the loop breaks. The second component records every guard handed
to the evaluator, in order. -/
def selectAux (env : Env) (st : BState) (evName nodeId : String) :
    List Candidate → Except String (Option Candidate) × List Guard
  | [] => (.ok none, [])
  | c :: rest =>
    let isInState := evalInCondB env st c
    match c.cond with
    | none =>
      if isInState then (.ok (some c), [])
      else selectAux env st evName nodeId rest
    | some g =>
      match env.evalGuard g st evName with
      | .error m => (.error (wrapGuardError g evName nodeId m), [g])
      | .ok b =>
        if b && isInState then (.ok (some c), [g])
        else
          let r := selectAux env st evName nodeId rest
          (r.1, g :: r.2)

/-- Modelled from the spec: getRelativeStateNodes lives in stateUtils.ts,
outside the source under verification. Spec step 6 of section 4.3: a target
expands downward to a full leaf-reaching configuration; atomic and final
nodes expand to themselves, a compound node expands through its initial
child, a parallel node expands to all children, a history node resolves to
its recorded configuration or expands its fallback target. The fuel bounds
the recursion depth, which the arena encoding cannot bound by itself; any
fuel at least the tree height gives the expansion. -/
def expand (arena : List BNode) (st : BState) : Nat → Nat → List Nat
  | 0, n => [n]
  | fuel + 1, n =>
    let node := arena.getD n dfltBNode
    match node.ntype with
    | .atomic => [n]
    | .final => [n]
    | .compound =>
      match node.initialChild with
      | some c => expand arena st fuel c
      | none => [n]
    | .parallel => (node.children.map (fun c => expand arena st fuel c)).flatten
    | .history =>
      match st.historyValue.lookup node.id with
      | some conf => conf
      | none =>
        match node.historyTarget with
        | some t => expand arena st fuel t
        | none => [n]

/-- The ancestor chain of a node, the node first, walking parent
back-references; the fuel bounds the walk. -/
def ancestorsAux (arena : List BNode) : Nat → Nat → List Nat
  | 0, n => [n]
  | fuel + 1, n =>
    match (arena.getD n dfltBNode).parent with
    | none => [n]
    | some p => n :: ancestorsAux arena fuel p

def ancestors (arena : List BNode) (n : Nat) : List Nat :=
  ancestorsAux arena arena.length n

/-- Modelled from the spec: nodesFromChild lives in stateUtils.ts, outside
the source under verification. Spec step 7 of section 4.3: the entry set is
the set of nodes on the path down to each resolved leaf target that must be
re-entered, and in the spec example a transition from idle targeting its
sibling active yields the entry set holding exactly active. Both are given by
keeping, of the target ancestor chain, the nodes that are not an ancestor of
the source node nor the source node itself, in document (top-down) order. -/
def nodesFromChild (arena : List BNode) (self target : Nat) : List Nat :=
  ((ancestors arena target).filter
      (fun m => !((ancestors arena self).contains m))).reverse

/-- StateNode.next (source lines 353-461). A history node with a recorded
configuration short-circuits (lines 357-366). Otherwise the candidates for
the event are fetched and the selection loop runs; no selection is the
defined undefined outcome (ok none), a thrown guard propagates as an error.
A selected candidate without targets keeps the configuration at this node
when the prior value is truthy, with empty entry and exit sets (lines
426-435). Otherwise the targets are expanded, the entry set is the re-entry
nodes of each expanded target unless the transition is internal, and the
exit set is this node unless internal (lines 437-461). The second component
is the guard invocation log of the selection loop. -/
def next (env : Env) (arena : List BNode) (self : Nat) (st : BState)
    (evName : String) : Except String (Option StateTransition) × List Guard :=
  let node := arena.getD self dfltBNode
  if node.ntype = NodeType.history ∧ (st.historyValue.lookup node.id).isSome then
    (.ok (some { transitions := [], configuration := (st.historyValue.lookup node.id).getD [],
                 entrySet := [], exitSet := [], actions := [] }), [])
  else
    let candidates := getCandidates node evName
    match selectAux env st evName node.id candidates with
    | (.error e, tr) => (.error e, tr)
    | (.ok none, tr) => (.ok none, tr)
    | (.ok (some c), tr) =>
      let nextStateNodes := c.target.getD []
      if nextStateNodes.isEmpty then
        (.ok (some { transitions := [c], entrySet := [], exitSet := [],
                     configuration := if svTruthy st.value then [self] else [],
                     actions := c.actions }), tr)
      else
        let allNext := (nextStateNodes.map (fun t => expand arena st (arena.length + 1) t)).flatten
        let reentryNodes :=
          if c.internal then []
          else (allNext.map (fun t => nodesFromChild arena self t)).flatten
        (.ok (some { transitions := [c], entrySet := reentryNodes,
                     exitSet := if c.internal then [] else [self],
                     configuration := allNext, actions := c.actions }), tr)

/-- The outcome of the guard side of a candidate: ok true when no guard is
declared, otherwise whatever the evaluator returns. -/
def guardOutcome (env : Env) (st : BState) (evName : String) (c : Candidate) :
    Except String Bool :=
  match c.cond with
  | none => .ok true
  | some g => env.evalGuard g st evName

/-- A candidate whose guard evaluates without throwing but that is not
selected: the guard returned false or the in-state condition failed. -/
def notSelectedAt (env : Env) (st : BState) (evName : String) (c : Candidate) : Prop :=
  ∃ b, guardOutcome env st evName c = .ok b ∧
    (b = false ∨ evalInCondB env st c = false)

/-- A structurally passing candidate: guard ok true and in-state true. -/
def selectedAt (env : Env) (st : BState) (evName : String) (c : Candidate) : Prop :=
  guardOutcome env st evName c = .ok true ∧ evalInCondB env st c = true

theorem guardOutcome_none {env : Env} {st : BState} {evName : String}
    {c : Candidate} (h : c.cond = none) :
    guardOutcome env st evName c = .ok true := by
  simp [guardOutcome, h]

theorem guardOutcome_some {env : Env} {st : BState} {evName : String}
    {c : Candidate} {g : Guard} (h : c.cond = some g) :
    guardOutcome env st evName c = env.evalGuard g st evName := by
  simp [guardOutcome, h]

/-- The selection loop picks the first structurally passing candidate: with
every earlier candidate evaluating cleanly but not passing, the loop returns
that candidate and the guard log is exactly the declared guards of the
candidates up to and including it, in order. -/
theorem selectAux_select (env : Env) (st : BState) (evName nodeId : String)
    (pre : List Candidate) (c : Candidate) (rest : List Candidate)
    (hpre : ∀ x ∈ pre, notSelectedAt env st evName x)
    (hc : selectedAt env st evName c) :
    selectAux env st evName nodeId (pre ++ c :: rest) =
      (.ok (some c), (pre ++ [c]).filterMap Candidate.cond) := by
  revert hpre
  induction pre with
  | nil =>
    intro _
    obtain ⟨hg, hin⟩ := hc
    cases hcond : c.cond with
    | none =>
      simp [selectAux, hcond, hin]
    | some g =>
      rw [guardOutcome_some hcond] at hg
      simp [selectAux, hcond, hg, hin]
  | cons p pre2 ih =>
    intro hpre
    obtain ⟨b, hgb, hfail⟩ := hpre p (List.mem_cons_self p pre2)
    have hrest : ∀ x ∈ pre2, notSelectedAt env st evName x :=
      fun x hx => hpre x (List.mem_cons_of_mem p hx)
    cases hpcond : p.cond with
    | none =>
      rw [guardOutcome_none hpcond] at hgb
      have hb : b = true := by
        cases hgb; rfl
      subst hb
      have hinp : evalInCondB env st p = false := by
        rcases hfail with h | h
        · exact absurd h (by simp)
        · exact h
      simp [selectAux, hpcond, hinp]
      rw [ih hrest]
      simp [hpcond]
    | some g =>
      rw [guardOutcome_some hpcond] at hgb
      have hba : (b && evalInCondB env st p) = false := by
        rcases hfail with h | h <;> simp [h]
      simp [selectAux, hpcond, hgb, hba]
      rw [ih hrest]
      simp [hpcond]

/-- A thrown guard aborts the loop: with every earlier candidate evaluating
cleanly but not passing, a candidate whose guard evaluation fails makes the
whole loop fail with the wrapped message, whatever comes after it, and the
guard log ends at that guard. -/
theorem selectAux_error (env : Env) (st : BState) (evName nodeId : String)
    (pre : List Candidate) (c : Candidate) (rest : List Candidate)
    (g : Guard) (m : String)
    (hpre : ∀ x ∈ pre, notSelectedAt env st evName x)
    (hg : c.cond = some g)
    (hm : env.evalGuard g st evName = .error m) :
    selectAux env st evName nodeId (pre ++ c :: rest) =
      (.error (wrapGuardError g evName nodeId m),
        pre.filterMap Candidate.cond ++ [g]) := by
  revert hpre
  induction pre with
  | nil =>
    intro _
    simp [selectAux, hg, hm]
  | cons p pre2 ih =>
    intro hpre
    obtain ⟨b, hgb, hfail⟩ := hpre p (List.mem_cons_self p pre2)
    have hrest : ∀ x ∈ pre2, notSelectedAt env st evName x :=
      fun x hx => hpre x (List.mem_cons_of_mem p hx)
    cases hpcond : p.cond with
    | none =>
      rw [guardOutcome_none hpcond] at hgb
      have hb : b = true := by
        cases hgb; rfl
      subst hb
      have hinp : evalInCondB env st p = false := by
        rcases hfail with h | h
        · exact absurd h (by simp)
        · exact h
      simp [selectAux, hpcond, hinp]
      rw [ih hrest]
    | some gp =>
      rw [guardOutcome_some hpcond] at hgb
      have hba : (b && evalInCondB env st p) = false := by
        rcases hfail with h | h <;> simp [h]
      simp [selectAux, hpcond, hgb, hba]
      rw [ih hrest]
      simp [hpcond]

/-- Every candidate the loop reaches has its declared guard handed to the
evaluator, whatever its in-state condition or guard outcome: with every
earlier candidate evaluating cleanly but not passing, the guard of the next
candidate appears in the guard log. -/
theorem selectAux_guard_invoked (env : Env) (st : BState) (evName nodeId : String)
    (pre : List Candidate) (c : Candidate) (rest : List Candidate) (g : Guard)
    (hpre : ∀ x ∈ pre, notSelectedAt env st evName x)
    (hg : c.cond = some g) :
    g ∈ (selectAux env st evName nodeId (pre ++ c :: rest)).2 := by
  revert hpre
  induction pre with
  | nil =>
    intro _
    cases hm : env.evalGuard g st evName with
    | error m => simp [selectAux, hg, hm]
    | ok b =>
      by_cases hsel : (b && evalInCondB env st c) = true
      · simp [selectAux, hg, hm, hsel]
      · simp only [List.nil_append, selectAux, hg, hm]
        rw [if_neg hsel]
        simp
  | cons p pre2 ih =>
    intro hpre
    obtain ⟨b, hgb, hfail⟩ := hpre p (List.mem_cons_self p pre2)
    have hrest : ∀ x ∈ pre2, notSelectedAt env st evName x :=
      fun x hx => hpre x (List.mem_cons_of_mem p hx)
    cases hpcond : p.cond with
    | none =>
      rw [guardOutcome_none hpcond] at hgb
      have hb : b = true := by
        cases hgb; rfl
      subst hb
      have hinp : evalInCondB env st p = false := by
        rcases hfail with h | h
        · exact absurd h (by simp)
        · exact h
      simp [selectAux, hpcond, hinp]
      exact ih hrest
    | some gp =>
      rw [guardOutcome_some hpcond] at hgb
      have hba : (b && evalInCondB env st p) = false := by
        rcases hfail with h | h <;> simp [h]
      simp [selectAux, hpcond, hgb, hba]
      exact Or.inr (ih hrest)

/-- Outside the history short-circuit, the guard log of next is the guard log
of the selection loop over the candidates of the event. -/
theorem next_trace (env : Env) (arena : List BNode) (self : Nat) (st : BState)
    (evName : String)
    (hnh : ¬((arena.getD self dfltBNode).ntype = NodeType.history ∧
        (st.historyValue.lookup (arena.getD self dfltBNode).id).isSome = true)) :
    (next env arena self st evName).2 =
      (selectAux env st evName (arena.getD self dfltBNode).id
        (getCandidates (arena.getD self dfltBNode) evName)).2 := by
  simp only [next]
  rw [if_neg hnh]
  rcases hsa : selectAux env st evName (arena.getD self dfltBNode).id
      (getCandidates (arena.getD self dfltBNode) evName) with ⟨res, tr⟩
  cases res with
  | error e => simp
  | ok o =>
    cases o with
    | none => simp
    | some c =>
      by_cases ht : (c.target.getD []).isEmpty <;> simp [ht]

/-- C2: for every history node with a recorded configuration under its id in
the history value of the snapshot, next returns immediately, for any event,
the empty transition list, empty entry set, empty exit set, empty actions and
the recorded configuration, with no candidate matching and no guard
evaluation (the guard log is empty). -/
theorem claimC2_history_short_circuit (env : Env) (arena : List BNode)
    (self : Nat) (st : BState) (evName : String) (conf : List Nat)
    (hty : (arena.getD self dfltBNode).ntype = NodeType.history)
    (hhv : st.historyValue.lookup (arena.getD self dfltBNode).id = some conf) :
    next env arena self st evName =
      (.ok (some { transitions := [], configuration := conf,
                   entrySet := [], exitSet := [], actions := [] }), []) := by
  simp only [next]
  rw [if_pos ⟨hty, by rw [hhv]; rfl⟩]
  rw [hhv]
  rfl

/-- A history node with a recorded configuration, carrying a declared GO
handler that the short-circuit must ignore. -/
def exArena2 : List BNode :=
  [ { id := "H", ntype := .history, parent := none, children := [],
      initialChild := none, historyTarget := none,
      transitions := [{ eventType := "GO", cond := none, inCond := none,
                        target := some [1], actions := ["never"], internal := false }] },
    { id := "m.X", ntype := .atomic, parent := none, children := [],
      initialChild := none, historyTarget := none, transitions := [] },
    { id := "m.Y", ntype := .atomic, parent := none, children := [],
      initialChild := none, historyTarget := none, transitions := [] } ]

def exEnv2 : Env :=
  { evalGuard := fun _ _ _ => .ok true, evalIn := fun _ _ => true }

def exSt2 : BState :=
  { value := some (.str "X"), historyValue := [("H", [1, 2])] }

theorem claimC2_witness :
    next exEnv2 exArena2 0 exSt2 "GO" =
      (.ok (some { transitions := [], configuration := [1, 2],
                   entrySet := [], exitSet := [], actions := [] }), []) := by
  exact claimC2_history_short_circuit exEnv2 exArena2 0 exSt2 "GO" [1, 2]
    (by decide) rfl

/-- C1: outside the history short-circuit, next iterates the candidates of
the event type in declaration order and selects the first candidate whose
guard (true if absent) and in-condition (true if absent) both hold: with
every earlier candidate evaluating cleanly and not passing, the result is
built from that candidate, and the guard log is exactly the declared guards
of the candidates up to and including it, in order, so each guard up to the
selected one is invoked at most once, in order, and no later candidate is
evaluated. -/
theorem claimC1_first_passing_selected (env : Env) (arena : List BNode)
    (self : Nat) (st : BState) (evName : String)
    (pre : List Candidate) (c : Candidate) (rest : List Candidate)
    (hnh : ¬((arena.getD self dfltBNode).ntype = NodeType.history ∧
        (st.historyValue.lookup (arena.getD self dfltBNode).id).isSome = true))
    (hcand : getCandidates (arena.getD self dfltBNode) evName = pre ++ c :: rest)
    (hpre : ∀ x ∈ pre, notSelectedAt env st evName x)
    (hc : selectedAt env st evName c) :
    (∃ r, (next env arena self st evName).1 = .ok (some r) ∧
        r.transitions = [c] ∧ r.actions = c.actions) ∧
      (next env arena self st evName).2 = (pre ++ [c]).filterMap Candidate.cond := by
  have hsel := selectAux_select env st evName (arena.getD self dfltBNode).id
    pre c rest hpre hc
  simp only [next]
  rw [if_neg hnh, hcand, hsel]
  dsimp only
  constructor
  · split
    · exact ⟨_, rfl, rfl, rfl⟩
    · exact ⟨_, rfl, rfl, rfl⟩
  · split <;> rfl

def exGuard1a : Guard := { name := some "g1", gtype := "guard" }

def exGuard1b : Guard := { name := some "g2", gtype := "guard" }

def exCand1a : Candidate :=
  { eventType := "GO", cond := some exGuard1a, inCond := none,
    target := some [1], actions := [], internal := false }

def exCand1b : Candidate :=
  { eventType := "GO", cond := some exGuard1b, inCond := none,
    target := some [2], actions := [], internal := false }

/-- The spec example: two GO candidates on one node, g1 returning false and
g2 returning true, targeting B and C. -/
def exArena1 : List BNode :=
  [ { id := "m.A", ntype := .atomic, parent := none, children := [],
      initialChild := none, historyTarget := none,
      transitions := [exCand1a, exCand1b] },
    { id := "m.B", ntype := .atomic, parent := none, children := [],
      initialChild := none, historyTarget := none, transitions := [] },
    { id := "m.C", ntype := .atomic, parent := none, children := [],
      initialChild := none, historyTarget := none, transitions := [] } ]

def exEnv1 : Env :=
  { evalGuard := fun g _ _ => .ok (g.name == some "g2"),
    evalIn := fun _ _ => true }

def exSt1 : BState := { value := some (.str "A"), historyValue := [] }

theorem claimC1_witness :
    (∃ r, (next exEnv1 exArena1 0 exSt1 "GO").1 = .ok (some r) ∧
        r.transitions = [exCand1b] ∧ r.actions = exCand1b.actions) ∧
      (next exEnv1 exArena1 0 exSt1 "GO").2 = [exGuard1a, exGuard1b] := by
  have h := claimC1_first_passing_selected exEnv1 exArena1 0 exSt1 "GO"
    [exCand1a] exCand1b [] (by decide) (by decide)
    (by
      intro x hx
      simp only [List.mem_singleton] at hx
      subst hx
      exact ⟨false, rfl, Or.inl rfl⟩)
    ⟨rfl, rfl⟩
  refine ⟨h.1, ?_⟩
  rw [h.2]
  decide

/-- C3: outside the history short-circuit, when the candidates reached so far
evaluate cleanly and do not pass and the next candidate has a guard whose
evaluation throws, next fails as a whole with the wrapped message naming the
guard (its name, or its type when unnamed), the event type and the node id;
no partial result is returned and no later candidate continues the
selection. -/
theorem claimC3_guard_throw_aborts (env : Env) (arena : List BNode)
    (self : Nat) (st : BState) (evName : String)
    (pre : List Candidate) (c : Candidate) (rest : List Candidate)
    (g : Guard) (m : String)
    (hnh : ¬((arena.getD self dfltBNode).ntype = NodeType.history ∧
        (st.historyValue.lookup (arena.getD self dfltBNode).id).isSome = true))
    (hcand : getCandidates (arena.getD self dfltBNode) evName = pre ++ c :: rest)
    (hpre : ∀ x ∈ pre, notSelectedAt env st evName x)
    (hg : c.cond = some g)
    (hm : env.evalGuard g st evName = .error m) :
    next env arena self st evName =
      (.error (wrapGuardError g evName (arena.getD self dfltBNode).id m),
        pre.filterMap Candidate.cond ++ [g]) := by
  have hsel := selectAux_error env st evName (arena.getD self dfltBNode).id
    pre c rest g m hpre hg hm
  simp only [next]
  rw [if_neg hnh, hcand, hsel]

def exGuard3 : Guard := { name := none, gtype := "canGo" }

def exCand3 : Candidate :=
  { eventType := "GO", cond := some exGuard3, inCond := none,
    target := some [1], actions := [], internal := false }

def exArena3 : List BNode :=
  [ { id := "m.A", ntype := .atomic, parent := none, children := [],
      initialChild := none, historyTarget := none, transitions := [exCand3] },
    { id := "m.B", ntype := .atomic, parent := none, children := [],
      initialChild := none, historyTarget := none, transitions := [] } ]

/-- An environment whose guard evaluation always throws. -/
def exEnv3 : Env :=
  { evalGuard := fun _ _ _ => .error "boom", evalIn := fun _ _ => true }

def exSt3 : BState := { value := some (.str "A"), historyValue := [] }

theorem claimC3_witness :
    next exEnv3 exArena3 0 exSt3 "GO" =
      (.error "Unable to evaluate guard 'canGo' in transition for event 'GO' in state node 'm.A':\nboom",
        [exGuard3]) := by
  have h := claimC3_guard_throw_aborts exEnv3 exArena3 0 exSt3 "GO"
    [] exCand3 [] exGuard3 "boom" (by decide) (by decide)
    (by intro x hx; simp at hx) rfl rfl
  rw [h]
  rfl

/-- C10: outside the history short-circuit, when the candidates reached so
far evaluate cleanly and do not pass and the next candidate carries both a
guard and an in-condition that evaluates to false, the guard is still handed
to the evaluator (it appears in the guard log), and when that guard throws,
next fails as a whole with the wrapped message even though the in-condition
would have excluded the candidate from selection. -/
theorem claimC10_guard_runs_despite_in_false (env : Env) (arena : List BNode)
    (self : Nat) (st : BState) (evName : String)
    (pre : List Candidate) (c : Candidate) (rest : List Candidate)
    (g : Guard) (r : String)
    (hnh : ¬((arena.getD self dfltBNode).ntype = NodeType.history ∧
        (st.historyValue.lookup (arena.getD self dfltBNode).id).isSome = true))
    (hcand : getCandidates (arena.getD self dfltBNode) evName = pre ++ c :: rest)
    (hpre : ∀ x ∈ pre, notSelectedAt env st evName x)
    (hg : c.cond = some g)
    (hr : c.inCond = some r)
    (hin : env.evalIn r st = false) :
    g ∈ (next env arena self st evName).2 ∧
      ∀ m, env.evalGuard g st evName = .error m →
        (next env arena self st evName).1 =
          .error (wrapGuardError g evName (arena.getD self dfltBNode).id m) := by
  constructor
  · rw [next_trace env arena self st evName hnh, hcand]
    exact selectAux_guard_invoked env st evName (arena.getD self dfltBNode).id
      pre c rest g hpre hg
  · intro m hm
    have hsel := selectAux_error env st evName (arena.getD self dfltBNode).id
      pre c rest g m hpre hg hm
    simp only [next]
    rw [if_neg hnh, hcand, hsel]

def exGuard10 : Guard := { name := some "check", gtype := "guard" }

def exCand10 : Candidate :=
  { eventType := "GO", cond := some exGuard10, inCond := some "#m.other",
    target := some [1], actions := [], internal := false }

def exArena10 : List BNode :=
  [ { id := "m.A", ntype := .atomic, parent := none, children := [],
      initialChild := none, historyTarget := none, transitions := [exCand10] },
    { id := "m.B", ntype := .atomic, parent := none, children := [],
      initialChild := none, historyTarget := none, transitions := [] } ]

/-- An environment where the in-state predicate always fails and the guard
always throws. -/
def exEnv10 : Env :=
  { evalGuard := fun _ _ _ => .error "kaboom", evalIn := fun _ _ => false }

def exSt10 : BState := { value := some (.str "A"), historyValue := [] }

theorem claimC10_witness :
    exGuard10 ∈ (next exEnv10 exArena10 0 exSt10 "GO").2 ∧
      (next exEnv10 exArena10 0 exSt10 "GO").1 =
        .error "Unable to evaluate guard 'check' in transition for event 'GO' in state node 'm.A':\nkaboom" := by
  have h := claimC10_guard_runs_despite_in_false exEnv10 exArena10 0 exSt10 "GO"
    [] exCand10 [] exGuard10 "#m.other" (by decide) (by decide)
    (by intro x hx; simp at hx) rfl rfl rfl
  exact ⟨h.1, h.2 "kaboom" rfl⟩

/-- The expansion of a list of leaf targets is the list itself. -/
theorem flatten_map_expand_leaf (arena : List BNode) (st : BState)
    (ns : List Nat)
    (hleaf : ∀ t ∈ ns, (arena.getD t dfltBNode).ntype = NodeType.atomic ∨
        (arena.getD t dfltBNode).ntype = NodeType.final) :
    (ns.map (fun t => expand arena st (arena.length + 1) t)).flatten = ns := by
  induction ns with
  | nil => simp
  | cons t ts ih =>
    have h1 : expand arena st (arena.length + 1) t = [t] := by
      rcases hleaf t (List.mem_cons_self t ts) with h | h <;> simp only [expand, h]
    have h2 := ih (fun x hx => hleaf x (List.mem_cons_of_mem t hx))
    simp [h1, h2]

/-- C4: outside the history short-circuit, when the selected candidate has
resolved leaf targets, the result configuration is those targets; unless the
transition is marked internal the exit set is exactly this node and the
entry set is, for each leaf target, the nodes on the path down to it that
must be re-entered (the modelled nodesFromChild); for a transition marked
internal both sets are empty. -/
theorem claimC4_entry_exit_sets (env : Env) (arena : List BNode)
    (self : Nat) (st : BState) (evName : String)
    (pre : List Candidate) (c : Candidate) (rest : List Candidate)
    (ns : List Nat)
    (hnh : ¬((arena.getD self dfltBNode).ntype = NodeType.history ∧
        (st.historyValue.lookup (arena.getD self dfltBNode).id).isSome = true))
    (hcand : getCandidates (arena.getD self dfltBNode) evName = pre ++ c :: rest)
    (hpre : ∀ x ∈ pre, notSelectedAt env st evName x)
    (hc : selectedAt env st evName c)
    (htgt : c.target = some ns)
    (hne : ns ≠ [])
    (hleaf : ∀ t ∈ ns, (arena.getD t dfltBNode).ntype = NodeType.atomic ∨
        (arena.getD t dfltBNode).ntype = NodeType.final) :
    (next env arena self st evName).1 =
      .ok (some { transitions := [c],
                  configuration := ns,
                  entrySet := if c.internal then []
                    else (ns.map (fun t => nodesFromChild arena self t)).flatten,
                  exitSet := if c.internal then [] else [self],
                  actions := c.actions }) := by
  have hsel := selectAux_select env st evName (arena.getD self dfltBNode).id
    pre c rest hpre hc
  have hexp := flatten_map_expand_leaf arena st ns hleaf
  have hemp : ns.isEmpty = false := by
    cases ns with
    | nil => exact absurd rfl hne
    | cons a l => rfl
  simp only [next]
  rw [if_neg hnh, hcand, hsel]
  dsimp only
  rw [htgt]
  simp only [Option.getD_some, hemp]
  rw [hexp]
  simp

/-- The spec example machine: a root compound with children idle and active,
idle handling START by an external transition targeting active. -/
def exCand4 : Candidate :=
  { eventType := "START", cond := none, inCond := none,
    target := some [2], actions := [], internal := false }

def exArena4 : List BNode :=
  [ { id := "light", ntype := .compound, parent := none, children := [1, 2],
      initialChild := some 1, historyTarget := none, transitions := [] },
    { id := "light.idle", ntype := .atomic, parent := some 0, children := [],
      initialChild := none, historyTarget := none, transitions := [exCand4] },
    { id := "light.active", ntype := .atomic, parent := some 0, children := [],
      initialChild := none, historyTarget := none, transitions := [] } ]

def exEnv4 : Env :=
  { evalGuard := fun _ _ _ => .ok true, evalIn := fun _ _ => true }

def exSt4 : BState := { value := some (.str "idle"), historyValue := [] }

theorem claimC4_witness :
    (next exEnv4 exArena4 1 exSt4 "START").1 =
      .ok (some { transitions := [exCand4], configuration := [2],
                  entrySet := [2], exitSet := [1], actions := [] }) := by
  have h := claimC4_entry_exit_sets exEnv4 exArena4 1 exSt4 "START"
    [] exCand4 [] [2] (by decide) (by decide)
    (by intro x hx; simp at hx) ⟨rfl, rfl⟩ rfl (by decide) (by decide)
  rw [h]
  rfl

/-- C5: outside the history short-circuit, when the selected candidate has no
targets, the result has empty entry and exit sets, the candidate actions as
the action list, and, the prior snapshot having a truthy value, the
configuration is just this node: no re-entry happens. -/
theorem claimC5_targetless_self (env : Env) (arena : List BNode)
    (self : Nat) (st : BState) (evName : String)
    (pre : List Candidate) (c : Candidate) (rest : List Candidate)
    (hnh : ¬((arena.getD self dfltBNode).ntype = NodeType.history ∧
        (st.historyValue.lookup (arena.getD self dfltBNode).id).isSome = true))
    (hcand : getCandidates (arena.getD self dfltBNode) evName = pre ++ c :: rest)
    (hpre : ∀ x ∈ pre, notSelectedAt env st evName x)
    (hc : selectedAt env st evName c)
    (htgt : c.target.getD [] = [])
    (hval : svTruthy st.value = true) :
    (next env arena self st evName).1 =
      .ok (some { transitions := [c], configuration := [self],
                  entrySet := [], exitSet := [], actions := c.actions }) := by
  have hsel := selectAux_select env st evName (arena.getD self dfltBNode).id
    pre c rest hpre hc
  simp only [next]
  rw [if_neg hnh, hcand, hsel]
  dsimp only
  rw [htgt]
  simp [hval]

def exCand5 : Candidate :=
  { eventType := "SAVE", cond := none, inCond := none,
    target := none, actions := ["persist"], internal := true }

/-- A node with an internal, targetless SAVE transition carrying an action. -/
def exArena5 : List BNode :=
  [ { id := "m.A", ntype := .atomic, parent := none, children := [],
      initialChild := none, historyTarget := none, transitions := [exCand5] } ]

def exEnv5 : Env :=
  { evalGuard := fun _ _ _ => .ok true, evalIn := fun _ _ => true }

def exSt5 : BState := { value := some (.str "A"), historyValue := [] }

theorem claimC5_witness :
    (next exEnv5 exArena5 0 exSt5 "SAVE").1 =
      .ok (some { transitions := [exCand5], configuration := [0],
                  entrySet := [], exitSet := [], actions := ["persist"] }) := by
  have h := claimC5_targetless_self exEnv5 exArena5 0 exSt5 "SAVE"
    [] exCand5 [] (by decide) (by decide)
    (by intro x hx; simp at hx) ⟨rfl, rfl⟩ rfl rfl
  rw [h]
  rfl

/-- A leaf config with no overrides, no children and no handlers. -/
def cfgLeaf : Config := .mk none none none none none none [] []

/-- Assigning a fresh key appends it. -/
theorem objAssign_not_mem (m : List (String × ANode)) (k : String) (v : ANode)
    (h : ¬ k ∈ m.map Prod.fst) :
    objAssign m k v = m ++ [(k, v)] := by
  simp [objAssign, h]

/-- Object.assign of entries whose keys are distinct and all fresh for the
target appends them in order. -/
theorem objAssignList_append (l : List (String × ANode)) :
    ∀ m : List (String × ANode),
      (l.map Prod.fst).Nodup →
      (∀ k ∈ l.map Prod.fst, ¬ k ∈ m.map Prod.fst) →
      objAssignList m l = m ++ l := by
  induction l with
  | nil =>
    intro m _ _
    simp [objAssignList]
  | cons p rest ih =>
    intro m hnd hdisj
    obtain ⟨k, v⟩ := p
    simp only [List.map_cons, List.nodup_cons] at hnd
    have hk : ¬ k ∈ m.map Prod.fst := hdisj k (by simp)
    have hdisj2 : ∀ k2 ∈ rest.map Prod.fst, ¬ k2 ∈ (m ++ [(k, v)]).map Prod.fst := by
      intro k2 hk2
      simp only [List.map_append, List.mem_append, List.map_cons, List.map_nil,
        List.mem_singleton, not_or]
      refine ⟨hdisj k2 (by simp [hk2]), ?_⟩
      intro hkk
      exact hnd.1 (hkk ▸ hk2)
    simp only [objAssignList]
    rw [objAssign_not_mem m k v hk, ih (m ++ [(k, v)]) hnd.2 hdisj2]
    simp

/-- The keys of the preorder entry list are the descendant ids. -/
theorem map_fst_entries (l : List ANode) :
    ((l.map (fun d => (d.id, d))).map Prod.fst) = l.map ANode.id := by
  simp [List.map_map]

/-- The idMap contribution of one child (source lines 205-208): assigning the
literal that holds the child under its id followed by the spread of the child
idMap appends, when the ids of the child and its descendants are distinct and
fresh for the map built so far, one entry per node of the child subtree in
document preorder. -/
theorem objAssign_child_chunk (acc : List (String × ANode)) (c : ANode)
    (hmapc : idMapOf c = (properDesc c).map (fun d => (d.id, d)))
    (hnd : ((c :: properDesc c).map ANode.id).Nodup)
    (hdisj : ∀ i ∈ (c :: properDesc c).map ANode.id, ¬ i ∈ acc.map Prod.fst) :
    objAssignList acc (objAssignList (objAssign [] c.id c) (idMapOf c)) =
      acc ++ (c :: properDesc c).map (fun d => (d.id, d)) := by
  simp only [List.map_cons, List.nodup_cons] at hnd
  obtain ⟨hciNot, hndBelow⟩ := hnd
  have hlit : objAssignList (objAssign [] c.id c) (idMapOf c) =
      (c.id, c) :: (properDesc c).map (fun d => (d.id, d)) := by
    rw [hmapc, objAssign_not_mem [] c.id c (by simp), List.nil_append]
    rw [objAssignList_append ((properDesc c).map (fun d => (d.id, d))) [(c.id, c)]
      (by rw [map_fst_entries]; exact hndBelow)
      (by
        intro k2 hk2
        rw [map_fst_entries] at hk2
        simp only [List.map_cons, List.map_nil, List.mem_singleton]
        intro hkc
        exact hciNot (hkc ▸ hk2))]
    rfl
  rw [hlit]
  rw [objAssignList_append ((c.id, c) :: (properDesc c).map (fun d => (d.id, d))) acc
    (by
      simp only [List.map_cons]
      rw [map_fst_entries]
      exact List.nodup_cons.mpr ⟨hciNot, hndBelow⟩)
    (by
      intro k2 hk2
      simp only [List.map_cons] at hk2
      rw [map_fst_entries] at hk2
      rcases List.mem_cons.mp hk2 with rfl | hk2b
      · exact hdisj c.id (by simp)
      · refine hdisj k2 ?_
        simp only [List.map_cons, List.mem_cons]
        exact Or.inr hk2b)]
  simp

/-- The idMap built over a child list, the descendant ids being distinct and
fresh for the object built so far, appends one entry per proper descendant
in document preorder, each keyed by its own id. -/
theorem idMapList_eq (l : List (String × ANode)) (acc : List (String × ANode))
    (hnd : ((properDescList l).map ANode.id).Nodup)
    (hdisj : ∀ i ∈ (properDescList l).map ANode.id, ¬ i ∈ acc.map Prod.fst) :
    idMapList acc l = acc ++ (properDescList l).map (fun d => (d.id, d)) := by
  match l with
  | [] => simp [idMapList, properDescList]
  | (k, c) :: rest =>
    match c with
    | .mk ck ci cty cp cik ch cts cs =>
      rw [show properDescList ((k, ANode.mk ck ci cty cp cik ch cts cs) :: rest) =
          (ANode.mk ck ci cty cp cik ch cts cs ::
              properDesc (ANode.mk ck ci cty cp cik ch cts cs)) ++
            properDescList rest from rfl,
        List.map_append] at hnd hdisj
      rw [List.nodup_append] at hnd
      obtain ⟨hndChunk, hndR, hLR⟩ := hnd
      have hmapc : idMapOf (ANode.mk ck ci cty cp cik ch cts cs) =
          (properDesc (ANode.mk ck ci cty cp cik ch cts cs)).map
            (fun d => (d.id, d)) := by
        have hndBelow : ((properDescList cs).map ANode.id).Nodup := by
          have h2 := hndChunk
          simp only [List.map_cons, List.nodup_cons] at h2
          simpa [properDesc] using h2.2
        have h := idMapList_eq cs [] hndBelow (by simp)
        simpa [idMapOf, properDesc] using h
      have hchunk := objAssign_child_chunk acc
        (ANode.mk ck ci cty cp cik ch cts cs) hmapc hndChunk
        (fun i hi => hdisj i (List.mem_append.mpr (Or.inl hi)))
      have hrest := idMapList_eq rest
        (acc ++ (ANode.mk ck ci cty cp cik ch cts cs ::
            properDesc (ANode.mk ck ci cty cp cik ch cts cs)).map
          (fun d => (d.id, d)))
        hndR
        (by
          intro i hi
          simp only [List.map_append, List.mem_append, not_or]
          refine ⟨hdisj i (List.mem_append.mpr (Or.inr hi)), ?_⟩
          rw [map_fst_entries]
          intro hiL
          exact hLR hiL hi)
      simp only [idMapList]
      rw [hchunk, hrest]
      simp [properDescList, List.append_assoc]
termination_by sizeOf l
decreasing_by
  all_goals simp_wf
  all_goals omega

/-- C8 amended: when the proper descendants of a node have pairwise distinct
ids, the idMap the node carries holds, in document preorder, exactly one
entry per proper descendant, each keyed by that descendant id; the node
itself is never an entry of its own idMap. With duplicate ids the JS object
collapses them last-write-wins, which objAssign models. -/
theorem claimC8_idMap_proper_descendants (n : ANode)
    (hnd : ((properDesc n).map ANode.id).Nodup) :
    idMapOf n = (properDesc n).map (fun d => (d.id, d)) := by
  cases n with
  | mk k i t p ik h ts s =>
    have h := idMapList_eq s [] (by simpa [properDesc] using hnd) (by simp)
    simpa [idMapOf, properDesc] using h

def cfgC8w : Config :=
  .mk (some "root") none none none none none
    [("a", .mk none none none none none none [("b", cfgLeaf)] []),
     ("c", cfgLeaf)] []

def nodeC8w : ANode := mkStateNode cfgC8w "machine" none

theorem claimC8_witness :
    ((properDesc nodeC8w).map ANode.id).Nodup ∧
      (idMapOf nodeC8w).map Prod.fst = ["root.a", "root.a.b", "root.c"] := by
  constructor
  · decide
  · rw [claimC8_idMap_proper_descendants nodeC8w (by decide)]
    rfl

def cfgC8 : Config := .mk (some "root") none none none none none [("a", cfgLeaf)] []

def nodeC8 : ANode := mkStateNode cfgC8 "machine" none

/-- C8 counterexample: the idMap of a constructed root with one child a has
exactly the key root.a, while the id of the node the map is attached to,
root, is absent: the lookup does not contain the node itself. -/
theorem claimC8_counterexample :
    (idMapOf nodeC8).map Prod.fst = ["root.a"] ∧
      nodeC8.id = "root" ∧
      ¬ ("root" ∈ (idMapOf nodeC8).map Prod.fst) := by
  refine ⟨rfl, rfl, ?_⟩
  decide

/-- A declared initial key naming no child reaches the not-found error of
the lookup loop. -/
theorem initialViaKey_not_found (nodeKey k : String) (l : List (String × ANode))
    (h : ∀ p ∈ l, p.1 ≠ k) :
    initialViaKey nodeKey k l =
      .error ("Initial state '" ++ k ++ "' not found on '" ++ nodeKey ++ "'") := by
  induction l with
  | nil => rfl
  | cons p rest ih =>
    obtain ⟨pk, pc⟩ := p
    have hne : pk ≠ k := h (pk, pc) (List.mem_cons_self _ _)
    simp only [initialViaKey]
    rw [if_neg hne]
    exact ih (fun q hq => h q (List.mem_cons_of_mem _ hq))

/-- C6 amended: for every node that is not parallel, a declared initial key
that names no existing child makes initialStateValue fail with the
configuration error naming the key and the node key. The failure belongs to
this lazily computed view: construction itself performs no initial-key
validation, and a node with no declared initial key yields ok none with no
error at all (see the counterexample). -/
theorem claimC6_dangling_initial_errors (n : ANode) (k : String)
    (hty : n.ntype ≠ NodeType.parallel)
    (hk : n.initialKey = some k)
    (hmiss : ∀ p ∈ n.statesList, p.1 ≠ k) :
    initialStateValue n =
      .error ("Initial state '" ++ k ++ "' not found on '" ++ n.key ++ "'") := by
  cases n with
  | mk key i t pth ik h ts s =>
    simp only [ANode.ntype] at hty
    simp only [ANode.initialKey] at hk
    simp only [ANode.statesList] at hmiss
    simp only [ANode.key]
    subst hk
    simp only [initialStateValue]
    rw [if_neg hty]
    exact initialViaKey_not_found key k s hmiss

def cfgC6bad : Config :=
  .mk (some "root") none none none none (some "nope") [("a", cfgLeaf)] []

theorem claimC6_witness :
    initialStateValue (mkStateNode cfgC6bad "machine" none) =
      .error "Initial state 'nope' not found on 'root'" := by
  have h := claimC6_dangling_initial_errors (mkStateNode cfgC6bad "machine" none)
    "nope" (by decide) rfl (by decide)
  rw [h]
  rfl

def cfgC6missing : Config :=
  .mk (some "root") none none none none none [("a", cfgLeaf), ("b", cfgLeaf)] []

/-- C6 counterexample: a compound node with no declared initial key is built
by the constructor without any error (construction is total and performs no
initial validation), and even the lazily computed initialStateValue raises
nothing: it is a plain undefined (ok none). So neither a missing initial key
nor the dangling-key case is an error raised eagerly at construction time:
the dangling-key error (see the amended theorem) lives in the lazy
initialStateValue view. -/
theorem claimC6_counterexample :
    (mkStateNode cfgC6missing "machine" none).ntype = NodeType.compound ∧
      (mkStateNode cfgC6missing "machine" none).initialKey = none ∧
      initialStateValue (mkStateNode cfgC6missing "machine" none) = .ok none :=
  ⟨rfl, rfl, rfl⟩

def cfgC7 : Config :=
  .mk (some "root") none (some ">") none none none [("a", cfgLeaf)] []

/-- C7: the source evaluated at the failing input. The machine root declares
the delimiter >, so under the claim the child of the root keyed a should get
the id root>a; the constructed child id is root.a instead, because the source
computes isMachine from this.parent before this.parent is assigned, so every
node takes the machine branch of the ternary and joins with its own config
delimiter or the default dot, never the machine delimiter. -/
theorem claimC7_delimiter_not_inherited :
    (mkStateNode cfgC7 "machine" none).id = "root" ∧
      ((mkStateNode cfgC7 "machine" none).statesList.map (fun p => p.2.id)) = ["root.a"] ∧
      "root.a" ≠ "root>a" :=
  ⟨rfl, rfl, by decide⟩

theorem mem_dedupFirstAux (e : String) (seen l : List String) :
    e ∈ dedupFirstAux seen l ↔ e ∈ l ∧ ¬ e ∈ seen := by
  induction l generalizing seen with
  | nil => simp [dedupFirstAux]
  | cons a l ih =>
    by_cases ha : seen.contains a
    · have ham : a ∈ seen := List.elem_iff.mp ha
      rw [dedupFirstAux, if_pos ha, ih]
      simp only [List.mem_cons]
      constructor
      · exact fun h => ⟨Or.inr h.1, h.2⟩
      · rintro ⟨rfl | hl, hs⟩
        · exact absurd ham hs
        · exact ⟨hl, hs⟩
    · rw [dedupFirstAux, if_neg ha]
      have ham : ¬ a ∈ seen := fun hm => ha (List.elem_iff.mpr hm)
      simp only [List.mem_cons, ih, not_or]
      constructor
      · rintro (rfl | ⟨hl, hne, hs⟩)
        · exact ⟨Or.inl rfl, ham⟩
        · exact ⟨Or.inr hl, hs⟩
      · rintro ⟨rfl | hl, hs⟩
        · exact Or.inl rfl
        · by_cases hea : e = a
          · exact Or.inl hea
          · exact Or.inr ⟨hl, hea, hs⟩

theorem mem_dedupFirst (e : String) (l : List String) :
    e ∈ dedupFirst l ↔ e ∈ l := by
  simp [dedupFirst, mem_dedupFirstAux]

theorem mem_eventsList (e : String) (l : List (String × ANode)) :
    e ∈ eventsList l ↔ ∃ p ∈ l, e ∈ events p.2 := by
  induction l with
  | nil => simp [eventsList]
  | cons p rest ih =>
    obtain ⟨k, c⟩ := p
    simp [eventsList, ih]

/-- C9 amended: the events of a node are the union of its ownEvents with the
events of every child, leaf children with no substates included: the guard
if (state.states) of the source never filters because the states field is
always an object, hence always truthy. -/
theorem claimC9_events_union (n : ANode) (e : String) :
    e ∈ events n ↔ e ∈ ownEvents n ∨ ∃ p ∈ n.statesList, e ∈ events p.2 := by
  cases n with
  | mk k i t pth ik h ts s =>
    simp only [events, ownEvents, ANode.transitions, ANode.statesList]
    rw [mem_dedupFirst, List.mem_append, mem_eventsList]

def cfgC9leaf : Config :=
  .mk none none none none none none []
    [{ eventType := "PING", target := none, actions := ["log"], internal := false }]

def cfgC9 : Config := .mk (some "root") none none none none none [("a", cfgC9leaf)] []

def nodeC9 : ANode := mkStateNode cfgC9 "machine" none

/-- C9 counterexample: the leaf child a of the root handles PING (a non-inert
transition) and has no substates; the source events of the root contains
PING all the same, while the computation following the spec words, which
skips children without nested children, leaves it out. -/
theorem claimC9_counterexample :
    "PING" ∈ events nodeC9 ∧ ¬ "PING" ∈ eventsSpecC9 nodeC9 := by
  decide

end XStateModel
